import Mathlib

/-
Verification of the `ethereum_hashing` crate: a dispatch layer over two SHA-256
implementations (the `sha2` crate and the `ring` crate), a streaming context,
a two-input concatenation hasher and a cached table of zero-subtree hashes.

The crate itself never implements SHA-256 compression; both backends delegate
to external crates. Those external primitives are modelled here by one
executable reference SHA-256 (FIPS 180-4) together with its standard streaming
context, and every function of the crate (`hash`, `hash_fixed`,
`hash32_concat`, `DynamicContext`, `ZERO_HASHES`, ...) is translated from
`lib.rs` / `sha2_impl.rs` on top of that model. Build configuration
(`target_arch = x86_64`) and the CPU feature probe are made explicit as a
`BuildEnv` value.
-/

namespace EthereumHashing

/-- Length of a SHA256 hash in bytes (`HASH_LEN` in `lib.rs`). -/
def HASH_LEN : Nat := 32

/-- Big-endian byte serialisation of a natural number into `n` bytes. -/
def beBytes : Nat → Nat → List Nat
  | 0, _ => []
  | n + 1, x => beBytes n (x / 256) ++ [x % 256]

/-- 32-bit rotate right. -/
def rotr (k x : Nat) : Nat := ((x >>> k) ||| (x <<< (32 - k))) % 2 ^ 32

/-- Logical shift right. -/
def shr (k x : Nat) : Nat := x >>> k

/-- The Σ0 function of FIPS 180-4. -/
def bigSigma0 (x : Nat) : Nat := (rotr 2 x) ^^^ (rotr 13 x) ^^^ (rotr 22 x)

/-- The Σ1 function of FIPS 180-4. -/
def bigSigma1 (x : Nat) : Nat := (rotr 6 x) ^^^ (rotr 11 x) ^^^ (rotr 25 x)

/-- The σ0 function of FIPS 180-4. -/
def smallSigma0 (x : Nat) : Nat := (rotr 7 x) ^^^ (rotr 18 x) ^^^ (shr 3 x)

/-- The σ1 function of FIPS 180-4. -/
def smallSigma1 (x : Nat) : Nat := (rotr 17 x) ^^^ (rotr 19 x) ^^^ (shr 10 x)

/-- The choice function of FIPS 180-4 (32-bit complement written as xor). -/
def ch (x y z : Nat) : Nat := (x &&& y) ^^^ ((x ^^^ (2 ^ 32 - 1)) &&& z)

/-- The majority function of FIPS 180-4. -/
def maj (x y z : Nat) : Nat := (x &&& y) ^^^ (x &&& z) ^^^ (y &&& z)

/-- The 64 SHA-256 round constants of FIPS 180-4, written in decimal. -/
def K : List Nat :=
  [1116352408, 1899447441, 3049323471, 3921009573, 961987163,
   1508970993, 2453635748, 2870763221, 3624381080, 310598401,
   607225278, 1426881987, 1925078388, 2162078206, 2614888103,
   3248222580, 3835390401, 4022224774, 264347078, 604807628,
   770255983, 1249150122, 1555081692, 1996064986, 2554220882,
   2821834349, 2952996808, 3210313671, 3336571891, 3584528711,
   113926993, 338241895, 666307205, 773529912, 1294757372,
   1396182291, 1695183700, 1986661051, 2177026350, 2456956037,
   2730485921, 2820302411, 3259730800, 3345764771, 3516065817,
   3600352804, 4094571909, 275423344, 430227734, 506948616,
   659060556, 883997877, 958139571, 1322822218, 1537002063,
   1747873779, 1955562222, 2024104815, 2227730452, 2361852424,
   2428436474, 2756734187, 3204031479, 3329325298]

/-- The eight words of the SHA-256 initial hash value, in decimal. -/
def H0 : List Nat :=
  [1779033703, 3144134277, 1013904242,
   2773480762, 1359893119, 2600822924,
   528734635, 1541459225]

/-- Combine bytes into 32-bit big-endian words. -/
def toWords : List Nat → List Nat
  | b0 :: b1 :: b2 :: b3 :: rest =>
      (b0 * 16777216 + b1 * 65536 + b2 * 256 + b3) :: toWords rest
  | _ => []

/-- Next entry of the SHA-256 message schedule. -/
def nextW (ws : List Nat) : Nat :=
  let t := ws.length
  (smallSigma1 (ws.getD (t - 2) 0) + ws.getD (t - 7) 0 +
    smallSigma0 (ws.getD (t - 15) 0) + ws.getD (t - 16) 0) % 2 ^ 32

/-- Extend the message schedule by `n` entries. -/
def extendSchedule : List Nat → Nat → List Nat
  | ws, 0 => ws
  | ws, n + 1 => extendSchedule (ws ++ [nextW ws]) n

/-- One SHA-256 round on the working variables `[a, b, c, d, e, f, g, h]`. -/
def roundStep (st : List Nat) (kw : Nat × Nat) : List Nat :=
  let a := st.getD 0 0
  let b := st.getD 1 0
  let c := st.getD 2 0
  let d := st.getD 3 0
  let e := st.getD 4 0
  let f := st.getD 5 0
  let g := st.getD 6 0
  let hh := st.getD 7 0
  let t1 := (hh + bigSigma1 e + ch e f g + kw.1 + kw.2) % 2 ^ 32
  let t2 := (bigSigma0 a + maj a b c) % 2 ^ 32
  [(t1 + t2) % 2 ^ 32, a, b, c, (d + t1) % 2 ^ 32, e, f, g]

/-- The SHA-256 compression function on a 64-byte block. -/
def compress (h : List Nat) (block : List Nat) : List Nat :=
  let ws := extendSchedule (toWords block) 48
  let st := (K.zip ws).foldl roundStep h
  (List.range 8).map (fun i => (h.getD i 0 + st.getD i 0) % 2 ^ 32)

/-- Byte-wise absorption: feed bytes into the buffer, compressing each
completed 64-byte block into the hash state. -/
def absorbBytes : List Nat → List Nat → List Nat → List Nat × List Nat
  | h, buf, [] => (h, buf)
  | h, buf, b :: rest =>
      let buf2 := buf ++ [b]
      if buf2.length = 64 then absorbBytes (compress h buf2) [] rest
      else absorbBytes h buf2 rest

/-- SHA-256 padding suffix for a message of `len` bytes: the byte `0x80`,
zeros up to 56 mod 64, then the bit length as a 64-bit big-endian integer. -/
def padSuffix (len : Nat) : List Nat :=
  0x80 :: (List.replicate ((119 - len % 64) % 64) 0 ++ beBytes 8 ((len * 8) % 2 ^ 64))

/-- Serialise the eight hash-state words into the 32-byte digest. -/
def wordsToBytes (ws : List Nat) : List Nat := (ws.map (beBytes 4)).flatten

/-- Modelled from the spec: the reference SHA-256 digest (section 6 names an
external, already-implemented SHA-256 primitive that both backends rely on;
the crate never reimplements it). Pad the message and absorb every block. -/
def sha256 (msg : List Nat) : List Nat :=
  wordsToBytes (absorbBytes H0 [] (msg ++ padSuffix msg.length)).1

/-- Modelled from the spec: the streaming state shared by the external
contexts `sha2::Sha256` and `ring::digest::Context` — the current hash state,
the unprocessed partial block and the total byte count (section 4.1: an
accumulator returning the digest of all bytes fed so far in order). -/
structure Sha256Ctx where
  h : List Nat
  buf : List Nat
  total : Nat

/-- A fresh streaming context. -/
def Sha256Ctx.new : Sha256Ctx := ⟨H0, [], 0⟩

/-- Append bytes to a streaming context. -/
def Sha256Ctx.update (c : Sha256Ctx) (bytes : List Nat) : Sha256Ctx :=
  ⟨(absorbBytes c.h c.buf bytes).1, (absorbBytes c.h c.buf bytes).2, c.total + bytes.length⟩

/-- Consume a streaming context, producing the digest of all fed bytes. -/
def Sha256Ctx.finalize (c : Sha256Ctx) : List Nat :=
  wordsToBytes (absorbBytes c.h c.buf (padSuffix c.total)).1

/-- Build configuration and CPU identity for one process run: whether the
build targets x86_64 (so the `Sha2` variant exists at all) and whether this
CPU has the sha, sse2, ssse3 and sse4.1 extensions. -/
structure BuildEnv where
  targetX86_64 : Bool
  cpuHasShaExtensions : Bool

/-- `have_sha_extensions` from `lib.rs`: on x86_64 it reads the cpufeatures
latch (whose value is the CPU capability, see `x86ShaExtensionsGet`), on any
other architecture it unconditionally returns `false`. -/
def have_sha_extensions (env : BuildEnv) : Bool :=
  if env.targetX86_64 then env.cpuHasShaExtensions else false

/-- State of the cpufeatures runtime latch generated by
`cpufeatures::new!(x86_sha_extensions, ...)`: `none` before the first probe,
`some b` once the probed answer has been cached. -/
structure FeatureCache where
  cached : Option Bool

/-- The latch before any call. -/
def FeatureCache.init : FeatureCache := ⟨none⟩

/-- One call of `x86_sha_extensions::get`: return the cached answer if
present, otherwise probe the CPU (whose capability is `cpu`), cache and
return it. -/
def x86ShaExtensionsGet (cpu : Bool) (st : FeatureCache) : Bool × FeatureCache :=
  match st.cached with
  | some b => (b, st)
  | none => (cpu, ⟨some cpu⟩)

/-- The latch state after `n` successive calls in one process run. -/
def callChain (cpu : Bool) : Nat → FeatureCache
  | 0 => FeatureCache.init
  | n + 1 => (x86ShaExtensionsGet cpu (callChain cpu n)).2

/-- The two variants of `DynamicImpl` in `lib.rs` (`Sha2` only exists on
x86_64 builds; `DynamicImpl.best` never selects it elsewhere). -/
inductive DynamicImpl where
  | Sha2
  | Ring
deriving DecidableEq

/-- `DynamicImpl::best` from `lib.rs`: on x86_64, `Sha2` exactly when
`have_sha_extensions()` holds, otherwise `Ring`; on any other architecture,
unconditionally `Ring`. -/
def DynamicImpl.best (env : BuildEnv) : DynamicImpl :=
  if env.targetX86_64 then
    if have_sha_extensions env then DynamicImpl.Sha2 else DynamicImpl.Ring
  else DynamicImpl.Ring

/-- `Sha2CrateImpl::hash` from `sha2_impl.rs`: the external one-shot
`sha2::Sha256::digest`, collected into a vector. -/
def Sha2CrateImpl.hash (input : List Nat) : List Nat := sha256 input

/-- `Sha2CrateImpl::hash_fixed` from `sha2_impl.rs`: the external one-shot
`sha2::Sha256::digest` as a fixed 32-byte array. -/
def Sha2CrateImpl.hash_fixed (input : List Nat) : List Nat := sha256 input

/-- `RingImpl::hash` from `lib.rs`: the external one-shot
`ring::digest::digest`, copied into a vector. -/
def RingImpl.hash (input : List Nat) : List Nat := sha256 input

/-- `RingImpl::hash_fixed` from `lib.rs`: create a fresh `ring` context,
update it once with the whole input and finalize it. -/
def RingImpl.hash_fixed (input : List Nat) : List Nat :=
  (Sha256Ctx.new.update input).finalize

/-- The `Sha256::hash` dispatch of `impl Sha256 for DynamicImpl`. -/
def DynamicImpl.hash : DynamicImpl → List Nat → List Nat
  | DynamicImpl.Sha2, input => Sha2CrateImpl.hash input
  | DynamicImpl.Ring, input => RingImpl.hash input

/-- The `Sha256::hash_fixed` dispatch of `impl Sha256 for DynamicImpl`. -/
def DynamicImpl.hash_fixed : DynamicImpl → List Nat → List Nat
  | DynamicImpl.Sha2, input => Sha2CrateImpl.hash_fixed input
  | DynamicImpl.Ring, input => RingImpl.hash_fixed input

/-- Top-level `hash` from `lib.rs`: digest of `input` using the best
available implementation, as a vector. -/
def hash (env : BuildEnv) (input : List Nat) : List Nat :=
  (DynamicImpl.best env).hash input

/-- Top-level `hash_fixed` from `lib.rs`: digest of `input` using the best
available implementation, as a fixed-size array. -/
def hash_fixed (env : BuildEnv) (input : List Nat) : List Nat :=
  (DynamicImpl.best env).hash_fixed input

/-- `DynamicContext` from `lib.rs`: a context of whichever backend was
selected at creation time. -/
inductive DynamicContext where
  | Sha2 : Sha256Ctx → DynamicContext
  | Ring : Sha256Ctx → DynamicContext

/-- `Sha256Context::new` for `DynamicContext`: select the best backend once
and create that backend's fresh context. -/
def DynamicContext.new (env : BuildEnv) : DynamicContext :=
  match DynamicImpl.best env with
  | DynamicImpl.Sha2 => DynamicContext.Sha2 Sha256Ctx.new
  | DynamicImpl.Ring => DynamicContext.Ring Sha256Ctx.new

/-- `Sha256Context::update` for `DynamicContext`: forward to the inner
context of the backend chosen at creation. -/
def DynamicContext.update : DynamicContext → List Nat → DynamicContext
  | DynamicContext.Sha2 c, bytes => DynamicContext.Sha2 (c.update bytes)
  | DynamicContext.Ring c, bytes => DynamicContext.Ring (c.update bytes)

/-- `Sha256Context::finalize` for `DynamicContext`: consume the inner
context of the backend chosen at creation. -/
def DynamicContext.finalize : DynamicContext → List Nat
  | DynamicContext.Sha2 c => c.finalize
  | DynamicContext.Ring c => c.finalize

/-- The backend a `DynamicContext` was created under. -/
def DynamicContext.backend : DynamicContext → DynamicImpl
  | DynamicContext.Sha2 _ => DynamicImpl.Sha2
  | DynamicContext.Ring _ => DynamicImpl.Ring

/-- `hash32_concat` from `lib.rs`: a fresh dynamic context, updated with
`h1` then `h2`, then finalized. No length check is performed. -/
def hash32_concat (env : BuildEnv) (h1 h2 : List Nat) : List Nat :=
  (((DynamicContext.new env).update h1).update h2).finalize

/-- The max index that can be used with `ZERO_HASHES` (`lib.rs`). -/
def ZERO_HASHES_MAX_INDEX : Nat := 48

/-- One iteration of the `ZERO_HASHES` construction loop in `lib.rs`:
`hashes[i + 1] = hash32_concat(&hashes[i], &hashes[i])`. -/
def zeroHashesStep (env : BuildEnv) (hashes : List (List Nat)) (i : Nat) : List (List Nat) :=
  hashes.set (i + 1) (hash32_concat env (hashes.getD i []) (hashes.getD i []))

/-- The initial vector of the `ZERO_HASHES` construction:
`vec![[0; HASH_LEN]; ZERO_HASHES_MAX_INDEX + 1]`. -/
def zeroHashesInit : List (List Nat) :=
  List.replicate (ZERO_HASHES_MAX_INDEX + 1) (List.replicate HASH_LEN 0)

/-- `ZERO_HASHES` from `lib.rs`: the lazily built table of zero-subtree
hashes, entry `i` being the hash of a Merkle tree with `2^i` zero leaves. -/
def ZERO_HASHES (env : BuildEnv) : List (List Nat) :=
  (List.range ZERO_HASHES_MAX_INDEX).foldl (zeroHashesStep env) zeroHashesInit

/-- The intended value of entry `i` of the zero-hash table, stated the way
the spec's invariant is written: entry 0 is 32 zero bytes, entry `i + 1` is
the concat-hash of entry `i` with itself. -/
def zeroHash (env : BuildEnv) : Nat → List Nat
  | 0 => List.replicate HASH_LEN 0
  | i + 1 => hash32_concat env (zeroHash env i) (zeroHash env i)

/-- The ASCII bytes of the test vector string of `tests.rs`. -/
def helloWorldBytes : List Nat := [104, 101, 108, 108, 111, 32, 119, 111, 114, 108, 100]

/-- The ASCII bytes of the first six characters of the test vector. -/
def helloBytes : List Nat := [104, 101, 108, 108, 111, 32]

/-- The ASCII bytes of the last five characters of the test vector. -/
def worldBytes : List Nat := [119, 111, 114, 108, 100]

/-- The expected digest of the test vector, from `tests.rs`. -/
def helloWorldDigest : List Nat :=
  [0xb9, 0x4d, 0x27, 0xb9, 0x93, 0x4d, 0x3e, 0x08, 0xa5, 0x2e, 0x52, 0xd7, 0xda, 0x7d, 0xab, 0xfa,
   0xc4, 0x84, 0xef, 0xe3, 0x7a, 0x53, 0x80, 0xee, 0x90, 0x88, 0xf7, 0xac, 0xe2, 0xef, 0xcd, 0xe9]

/-- The canonical SHA-256 digest of the empty byte sequence. -/
def emptyDigest : List Nat :=
  [0xe3, 0xb0, 0xc4, 0x42, 0x98, 0xfc, 0x1c, 0x14, 0x9a, 0xfb, 0xf4, 0xc8, 0x99, 0x6f, 0xb9, 0x24,
   0x27, 0xae, 0x41, 0xe4, 0x64, 0x9b, 0x93, 0x4c, 0xa4, 0x95, 0x99, 0x1b, 0x78, 0x52, 0xb8, 0x55]

/-- Absorbing a concatenation equals absorbing the two parts in turn. -/
theorem absorbBytes_append (xs ys : List Nat) :
    ∀ (h buf : List Nat), absorbBytes h buf (xs ++ ys) =
      absorbBytes (absorbBytes h buf xs).1 (absorbBytes h buf xs).2 ys := by
  induction xs with
  | nil => intro h buf; rfl
  | cons b rest ih =>
      intro h buf
      simp only [List.cons_append, absorbBytes]
      split
      · exact ih _ _
      · exact ih _ _

/-- Two successive updates equal one update with the concatenation. -/
theorem Sha256Ctx.update_append (c : Sha256Ctx) (xs ys : List Nat) :
    (c.update xs).update ys = c.update (xs ++ ys) := by
  simp only [Sha256Ctx.update, absorbBytes_append, List.length_append, Sha256Ctx.mk.injEq]
  refine ⟨trivial, trivial, ?_⟩
  omega

/-- Updating with no bytes leaves the context unchanged. -/
theorem Sha256Ctx.update_nil (c : Sha256Ctx) : c.update [] = c := by
  simp only [Sha256Ctx.update, absorbBytes, List.length_nil, Nat.add_zero]

/-- A fresh context updated with a whole message finalizes to the one-shot
reference digest. -/
theorem Sha256Ctx.finalize_update_new (msg : List Nat) :
    (Sha256Ctx.new.update msg).finalize = sha256 msg := by
  simp only [Sha256Ctx.new, Sha256Ctx.update, Sha256Ctx.finalize, sha256,
    absorbBytes_append, Nat.zero_add]

/-- Folding updates over a chunk list equals one update with the flattened
byte sequence. -/
theorem Sha256Ctx.foldl_update (chunks : List (List Nat)) :
    ∀ c : Sha256Ctx, chunks.foldl Sha256Ctx.update c = c.update chunks.flatten := by
  induction chunks with
  | nil => intro c; simp [Sha256Ctx.update_nil]
  | cons x rest ih =>
      intro c
      simp only [List.foldl_cons, List.flatten_cons, ih, Sha256Ctx.update_append]

/-- Folding dynamic updates over a `Sha2` context stays in the `Sha2` variant
and folds the inner context. -/
theorem DynamicContext.foldl_sha2 (chunks : List (List Nat)) :
    ∀ c : Sha256Ctx, chunks.foldl DynamicContext.update (DynamicContext.Sha2 c)
      = DynamicContext.Sha2 (chunks.foldl Sha256Ctx.update c) := by
  induction chunks with
  | nil => intro c; rfl
  | cons x rest ih => intro c; simp only [List.foldl_cons, DynamicContext.update, ih]

/-- Folding dynamic updates over a `Ring` context stays in the `Ring` variant
and folds the inner context. -/
theorem DynamicContext.foldl_ring (chunks : List (List Nat)) :
    ∀ c : Sha256Ctx, chunks.foldl DynamicContext.update (DynamicContext.Ring c)
      = DynamicContext.Ring (chunks.foldl Sha256Ctx.update c) := by
  induction chunks with
  | nil => intro c; rfl
  | cons x rest ih => intro c; simp only [List.foldl_cons, DynamicContext.update, ih]

/-- Every dispatch branch of `hash_fixed` computes the reference digest. -/
theorem hash_fixed_eq_sha256 (env : BuildEnv) (x : List Nat) :
    hash_fixed env x = sha256 x := by
  unfold hash_fixed
  cases DynamicImpl.best env with
  | Sha2 => simp [DynamicImpl.hash_fixed, Sha2CrateImpl.hash_fixed]
  | Ring => simp [DynamicImpl.hash_fixed, RingImpl.hash_fixed, Sha256Ctx.finalize_update_new]

/-- Every dispatch branch of `hash` computes the reference digest. -/
theorem hash_eq_sha256 (env : BuildEnv) (x : List Nat) :
    hash env x = sha256 x := by
  unfold hash
  cases DynamicImpl.best env with
  | Sha2 => simp [DynamicImpl.hash, Sha2CrateImpl.hash]
  | Ring => simp [DynamicImpl.hash, RingImpl.hash]

/-- Feeding chunks into a fresh dynamic context and finalizing computes the
reference digest of the concatenation, under either backend. -/
theorem dynamic_streaming (env : BuildEnv) (chunks : List (List Nat)) :
    (chunks.foldl DynamicContext.update (DynamicContext.new env)).finalize
      = sha256 chunks.flatten := by
  unfold DynamicContext.new
  cases DynamicImpl.best env with
  | Sha2 =>
      simp only [DynamicContext.foldl_sha2, DynamicContext.finalize,
        Sha256Ctx.foldl_update, Sha256Ctx.finalize_update_new]
  | Ring =>
      simp only [DynamicContext.foldl_ring, DynamicContext.finalize,
        Sha256Ctx.foldl_update, Sha256Ctx.finalize_update_new]

/-- `hash32_concat` computes the reference digest of the concatenation. -/
theorem hash32_concat_eq_sha256 (env : BuildEnv) (a b : List Nat) :
    hash32_concat env a b = sha256 (a ++ b) := by
  unfold hash32_concat DynamicContext.new
  cases DynamicImpl.best env with
  | Sha2 =>
      simp only [DynamicContext.update, DynamicContext.finalize,
        Sha256Ctx.update_append, Sha256Ctx.finalize_update_new]
  | Ring =>
      simp only [DynamicContext.update, DynamicContext.finalize,
        Sha256Ctx.update_append, Sha256Ctx.finalize_update_new]

/-- Big-endian serialisation into `n` bytes has length `n`. -/
theorem beBytes_length (n : Nat) : ∀ x : Nat, (beBytes n x).length = n := by
  induction n with
  | zero => intro x; rfl
  | succ n ih => intro x; simp [beBytes, ih]

/-- Serialising a word list yields four bytes per word. -/
theorem wordsToBytes_length (ws : List Nat) : (wordsToBytes ws).length = 4 * ws.length := by
  induction ws with
  | nil => rfl
  | cons w rest ih =>
      simp only [wordsToBytes, List.map_cons, List.flatten_cons, List.length_append,
        beBytes_length, List.length_cons] at *
      omega

/-- The compression function always returns eight words. -/
theorem compress_length (h block : List Nat) : (compress h block).length = 8 := by
  simp [compress]

/-- Absorption preserves an eight-word hash state. -/
theorem absorbBytes_fst_length (data : List Nat) :
    ∀ h buf : List Nat, h.length = 8 → ((absorbBytes h buf data).1).length = 8 := by
  induction data with
  | nil => intro h buf hh; exact hh
  | cons b rest ih =>
      intro h buf hh
      simp only [absorbBytes]
      split
      · exact ih _ _ (compress_length _ _)
      · exact ih _ _ hh

/-- The reference digest is always 32 bytes long. -/
theorem sha256_length (msg : List Nat) : (sha256 msg).length = 32 := by
  unfold sha256
  rw [wordsToBytes_length, absorbBytes_fst_length _ _ _ (by rfl)]

/-- Invariant of the `ZERO_HASHES` construction loop: after `n` iterations
the table still has `ZERO_HASHES_MAX_INDEX + 1` entries, entries `0..n` hold
the intended zero-subtree hashes and the rest still hold 32 zero bytes. -/
theorem zero_hashes_build (env : BuildEnv) :
    ∀ n : Nat, n ≤ ZERO_HASHES_MAX_INDEX →
    ((List.range n).foldl (zeroHashesStep env) zeroHashesInit).length = ZERO_HASHES_MAX_INDEX + 1 ∧
    ∀ j : Nat, j ≤ ZERO_HASHES_MAX_INDEX →
      ((List.range n).foldl (zeroHashesStep env) zeroHashesInit).getD j [] =
        if j ≤ n then zeroHash env j else List.replicate HASH_LEN 0 := by
  intro n
  induction n with
  | zero =>
      intro _
      refine ⟨by simp [zeroHashesInit], ?_⟩
      intro j hj
      have hjlt : j < ZERO_HASHES_MAX_INDEX + 1 := Nat.lt_succ_of_le hj
      have hval : zeroHashesInit.getD j [] = List.replicate HASH_LEN 0 := by
        rw [List.getD_eq_getElem?_getD, zeroHashesInit, List.getElem?_replicate, if_pos hjlt]
        rfl
      rw [List.range_zero, List.foldl_nil, hval]
      split
      · next hle =>
          have hj0 : j = 0 := Nat.le_zero.mp hle
          subst hj0
          rfl
      · rfl
  | succ n ih =>
      intro hsn
      have hn : n ≤ ZERO_HASHES_MAX_INDEX := Nat.le_of_succ_le hsn
      obtain ⟨hlen, hval⟩ := ih hn
      rw [List.range_succ, List.foldl_append, List.foldl_cons, List.foldl_nil]
      generalize hT : (List.range n).foldl (zeroHashesStep env) zeroHashesInit = T at hlen hval
      have hTn : T.getD n [] = zeroHash env n := by
        rw [hval n hn, if_pos (Nat.le_refl n)]
      constructor
      · rw [zeroHashesStep, List.length_set, hlen]
      · intro j hj
        rw [zeroHashesStep, List.getD_eq_getElem?_getD, List.getElem?_set]
        by_cases hje : n + 1 = j
        · subst hje
          rw [if_pos rfl, if_pos (by rw [hlen]; omega), hTn, if_pos (Nat.le_refl (n + 1))]
          rfl
        · rw [if_neg hje, ← List.getD_eq_getElem?_getD, hval j hj]
          by_cases hjn : j ≤ n
          · rw [if_pos hjn, if_pos (by omega)]
          · rw [if_neg hjn, if_neg (by omega)]

/-- The cpufeatures latch only ever caches the CPU's actual capability. -/
theorem callChain_cached (cpu : Bool) :
    ∀ n : Nat, (callChain cpu n).cached = none ∨ (callChain cpu n).cached = some cpu := by
  intro n
  induction n with
  | zero => exact Or.inl rfl
  | succ n ih =>
      cases ih with
      | inl h => right; simp [callChain, x86ShaExtensionsGet, h]
      | inr h => right; simp [callChain, x86ShaExtensionsGet, h]

/-- Every call of the latch in a process run returns the CPU capability. -/
theorem x86ShaExtensionsGet_callChain (cpu : Bool) (n : Nat) :
    (x86ShaExtensionsGet cpu (callChain cpu n)).1 = cpu := by
  cases callChain_cached cpu n with
  | inl h => simp [x86ShaExtensionsGet, h]
  | inr h => simp [x86ShaExtensionsGet, h]

set_option maxRecDepth 8000

/-- C1: for every byte sequence, the hardware backend (`Sha2CrateImpl`), the
portable backend (`RingImpl`) and the reference SHA-256 definition produce
the same 32-byte digest, as one-shot vectors and as fixed arrays. -/
theorem backend_equivalence (x : List Nat) :
    Sha2CrateImpl.hash_fixed x = sha256 x ∧
    RingImpl.hash_fixed x = sha256 x ∧
    Sha2CrateImpl.hash x = RingImpl.hash x ∧
    Sha2CrateImpl.hash_fixed x = RingImpl.hash_fixed x :=
  ⟨rfl, Sha256Ctx.finalize_update_new x, rfl, (Sha256Ctx.finalize_update_new x).symm⟩

/-- C2: feeding any chunk decomposition of a byte sequence into a fresh
`DynamicContext` in order and finalizing yields the one-shot digest of the
flattened sequence, so the digest depends only on the concatenation of the
chunks and not on the chunk boundaries. -/
theorem streaming_equivalence (env : BuildEnv) (chunks : List (List Nat)) :
    (chunks.foldl DynamicContext.update (DynamicContext.new env)).finalize
      = hash_fixed env chunks.flatten := by
  rw [dynamic_streaming, hash_fixed_eq_sha256]

/-- C3: for 32-byte values `a` and `b`, `hash32_concat a b` equals the
one-shot digest of the 64-byte concatenation of `a` followed by `b`. -/
theorem hash32_concat_equivalence (env : BuildEnv) (a b : List Nat)
    (_ha : a.length = 32) (_hb : b.length = 32) :
    hash32_concat env a b = hash_fixed env (a ++ b) := by
  rw [hash32_concat_eq_sha256, hash_fixed_eq_sha256]

/-- Witness for C3 at two concrete 32-byte inputs. -/
theorem hash32_concat_equivalence_witness :
    (List.replicate 32 0).length = 32 ∧ (List.replicate 32 1).length = 32 ∧
    hash32_concat ⟨true, true⟩ (List.replicate 32 0) (List.replicate 32 1)
      = hash_fixed ⟨true, true⟩ (List.replicate 32 0 ++ List.replicate 32 1) :=
  ⟨by simp, by simp,
    hash32_concat_equivalence ⟨true, true⟩ (List.replicate 32 0) (List.replicate 32 1)
      (by simp) (by simp)⟩

/-- C4: once built, the zero-hash table holds the all-zero 32-byte digest at
entry 0 and each entry `i + 1` equals `hash32_concat` of entry `i` with
itself, for every `i` below `ZERO_HASHES_MAX_INDEX`. -/
theorem zero_hashes_invariant (env : BuildEnv) (i : Nat)
    (hi : i < ZERO_HASHES_MAX_INDEX) :
    (ZERO_HASHES env).getD 0 [] = List.replicate HASH_LEN 0 ∧
    (ZERO_HASHES env).getD (i + 1) [] =
      hash32_concat env ((ZERO_HASHES env).getD i []) ((ZERO_HASHES env).getD i []) := by
  obtain ⟨hlen, hval⟩ := zero_hashes_build env ZERO_HASHES_MAX_INDEX (Nat.le_refl _)
  constructor
  · rw [ZERO_HASHES, hval 0 (by omega), if_pos (by omega)]
    rfl
  · rw [ZERO_HASHES, hval (i + 1) (by omega), hval i (by omega),
      if_pos (by omega), if_pos (by omega)]
    rfl

/-- Witness for C4 at index 0. -/
theorem zero_hashes_invariant_witness :
    0 < ZERO_HASHES_MAX_INDEX ∧
    ((ZERO_HASHES ⟨false, true⟩).getD 0 [] = List.replicate HASH_LEN 0 ∧
     (ZERO_HASHES ⟨false, true⟩).getD 1 [] =
       hash32_concat ⟨false, true⟩ ((ZERO_HASHES ⟨false, true⟩).getD 0 [])
         ((ZERO_HASHES ⟨false, true⟩).getD 0 [])) :=
  ⟨by decide, zero_hashes_invariant ⟨false, true⟩ 0 (by decide)⟩

/-- C5: the zero-hash table has exactly `ZERO_HASHES_MAX_INDEX + 1` entries
(indices 0 through 48) and looking up any larger index yields no digest. -/
theorem zero_hashes_bounds (env : BuildEnv) (i : Nat)
    (hi : ZERO_HASHES_MAX_INDEX < i) :
    (ZERO_HASHES env).length = ZERO_HASHES_MAX_INDEX + 1 ∧
    (ZERO_HASHES env)[i]? = none := by
  obtain ⟨hlen, _⟩ := zero_hashes_build env ZERO_HASHES_MAX_INDEX (Nat.le_refl _)
  have hlen' : (ZERO_HASHES env).length = ZERO_HASHES_MAX_INDEX + 1 := hlen
  refine ⟨hlen', List.getElem?_eq_none ?_⟩
  rw [hlen']
  exact hi

/-- Witness for C5 at index 49. -/
theorem zero_hashes_bounds_witness :
    ZERO_HASHES_MAX_INDEX < 49 ∧
    ((ZERO_HASHES ⟨true, false⟩).length = ZERO_HASHES_MAX_INDEX + 1 ∧
     (ZERO_HASHES ⟨true, false⟩)[49]? = none) :=
  ⟨by decide, zero_hashes_bounds ⟨true, false⟩ 49 (by decide)⟩

/-- C6: under any build and CPU, hashing the ASCII bytes of the test string
via `hash`, `hash_fixed`, either backend, or streaming in one or two chunks
yields the digest b94d27b9934d3e08a52e52d7da7dabfac484efe37a5380ee9088f7ace2efcde9,
and hashing the empty sequence yields the canonical empty-input digest
e3b0c44298fc1c149afbf4c8996fb92427ae41e4649b934ca495991b7852b855. -/
theorem known_answer_vectors (env : BuildEnv) :
    hash env helloWorldBytes = helloWorldDigest ∧
    hash_fixed env helloWorldBytes = helloWorldDigest ∧
    Sha2CrateImpl.hash_fixed helloWorldBytes = helloWorldDigest ∧
    RingImpl.hash_fixed helloWorldBytes = helloWorldDigest ∧
    ((DynamicContext.new env).update helloWorldBytes).finalize = helloWorldDigest ∧
    (((DynamicContext.new env).update helloBytes).update worldBytes).finalize
      = helloWorldDigest ∧
    hash_fixed env [] = emptyDigest := by
  have hhw : sha256 helloWorldBytes = helloWorldDigest := by decide
  have hempty : sha256 [] = emptyDigest := by decide
  have h1 : ((DynamicContext.new env).update helloWorldBytes).finalize
      = sha256 helloWorldBytes := by
    have hstream := dynamic_streaming env [helloWorldBytes]
    simpa using hstream
  have h2 : (((DynamicContext.new env).update helloBytes).update worldBytes).finalize
      = sha256 (helloBytes ++ worldBytes) := by
    have hstream := dynamic_streaming env [helloBytes, worldBytes]
    simpa using hstream
  have hsplit : helloBytes ++ worldBytes = helloWorldBytes := rfl
  refine ⟨?_, ?_, ?_, ?_, ?_, ?_, ?_⟩
  · rw [hash_eq_sha256, hhw]
  · rw [hash_fixed_eq_sha256, hhw]
  · exact hhw
  · rw [show RingImpl.hash_fixed helloWorldBytes = sha256 helloWorldBytes from
      Sha256Ctx.finalize_update_new _, hhw]
  · rw [h1, hhw]
  · rw [h2, hsplit, hhw]
  · rw [hash_fixed_eq_sha256, hempty]

/-- C7: the capability query returns the same boolean on every call within
one process run (the cpufeatures latch always answers with the CPU's fixed
capability), and on non-x86_64 builds it returns false unconditionally. -/
theorem capability_stable (cpu b : Bool) (n m : Nat) :
    (x86ShaExtensionsGet cpu (callChain cpu n)).1
      = (x86ShaExtensionsGet cpu (callChain cpu m)).1 ∧
    have_sha_extensions ⟨false, b⟩ = false := by
  rw [x86ShaExtensionsGet_callChain, x86ShaExtensionsGet_callChain]
  exact ⟨rfl, rfl⟩

/-- C8: `DynamicImpl::best` selects `Sha2` exactly when the capability probe
succeeds on a build that has the hardware backend, selects `Ring` on every
non-x86_64 build, a fresh context carries the backend selected at creation,
and updates never change that backend, so finalization uses it too. -/
theorem backend_selection (env : BuildEnv) (c : DynamicContext) (bytes : List Nat) :
    (DynamicImpl.best env = DynamicImpl.Sha2 ↔ have_sha_extensions env = true) ∧
    DynamicImpl.best ⟨false, env.cpuHasShaExtensions⟩ = DynamicImpl.Ring ∧
    (DynamicContext.new env).backend = DynamicImpl.best env ∧
    (c.update bytes).backend = c.backend := by
  refine ⟨?_, rfl, ?_, ?_⟩
  · obtain ⟨t, cp⟩ := env
    cases t <;> cases cp <;> decide
  · unfold DynamicContext.new
    cases DynamicImpl.best env <;> rfl
  · cases c <;> rfl

/-- C9: `hash` returns exactly 32 bytes, byte-for-byte equal to the fixed
array returned by `hash_fixed` on the same input. -/
theorem hash_matches_hash_fixed (env : BuildEnv) (x : List Nat) :
    hash env x = hash_fixed env x ∧ (hash env x).length = 32 := by
  rw [hash_eq_sha256, hash_fixed_eq_sha256]
  exact ⟨rfl, sha256_length x⟩

/-- C10: `hash32_concat` performs no length validation: for slices of any
lengths it returns the digest of the concatenation, i.e. `hash_fixed (a ++ b)`. -/
theorem hash32_concat_any_length (env : BuildEnv) (a b : List Nat) :
    hash32_concat env a b = hash_fixed env (a ++ b) := by
  rw [hash32_concat_eq_sha256, hash_fixed_eq_sha256]

end EthereumHashing
